import Mathlib

/-!
Verification of the dpp-protocol-git resolver (Shougo/dpp-protocol-git).

The repository contains two variants of the protocol implementation:
  * `denops/@dpp-protocols/git/main.ts` — the current variant; its helper
    `getGitUrl` is a pure function, `detect` marks local repositories with
    `local: true` only, and the sync planner carries credential/TLS flags.
  * `denops/@dpp-protocols/git.ts` — the legacy variant; its `getUrl` reports
    an invalid protocol through the host error sink `dpp#util#_error`, and
    its `detect` marks local repositories with both `frozen` and `local`.

Strings are modelled as lists of characters (`Str`).  JavaScript regular
expressions used by the source are `^`-anchored and built from character
classes that exclude their own delimiter, so every match can be computed by
splitting at the first occurrence of the delimiter; the functions below
implement exactly that backtracking-free semantics.  The regex `.` excludes
newlines in JavaScript; identifiers are single-line strings, and `.` is
modelled as "any character".

Filesystem probes (`isDirectory`, `safeStat`), the path-expansion host call
(`dpp#util#_expand`), file reads, and captured subprocess output are modelled
as explicit oracle arguments: the source only branches on their results.
-/

namespace DppGit

/-- Strings are modelled as lists of characters. -/
abbrev Str := List Char

/-- Coerce a Lean string literal into the model. -/
def str (s : String) : Str := s.data

/-- JavaScript falsiness of an optional string field: `undefined` or `""`. -/
def falsy : Option Str → Bool
  | none => true
  | some s => decide (s = [])

/-- `endsWith suf s` models JavaScript `s.endsWith(suf)`. -/
def endsWith (suf s : Str) : Bool := decide (suf <:+ s)

/-- First line of a string: JavaScript `s.split("\n")[0]`. -/
def firstLine (s : Str) : Str := s.takeWhile (· ≠ '\n')

/-- JavaScript `s.split("\n")`. -/
def splitLines : Str → List Str
  | [] => [[]]
  | c :: rest =>
    if c = '\n' then [] :: splitLines rest
    else
      match splitLines rest with
      | [] => [[c]]
      | h :: t => (c :: h) :: t

/-- JavaScript `s.includes(pat)`: substring test. -/
def containsSub (pat s : Str) : Bool := decide (pat <:+: s)

/-- Split a string at the first occurrence of character `c`; the separator is
consumed.  This is how an anchored regex `([^c]+)c` divides its input. -/
def splitFirst (c : Char) : Str → Option (Str × Str)
  | [] => none
  | x :: xs =>
    if x = c then some ([], xs)
    else
      match splitFirst c xs with
      | some (a, b) => some (x :: a, b)
      | none => none

/-- Plugin attribute overrides (`Attrs` in `git/main.ts`). -/
structure Attrs where
  gitDefaultBranch : Option Str := none
  gitRemote : Option Str := none
deriving DecidableEq

/-- The per-plugin record fields read by the resolver (`Plugin` of dpp.vim).
`isLocal` models the optional boolean field `local`. -/
structure Plugin where
  name : Str := []
  repo : Option Str := none
  path : Option Str := none
  rev : Option Str := none
  isLocal : Bool := false
  protocolAttrs : Option Attrs := none
deriving DecidableEq

/-- Protocol parameters (`Params` in `git/main.ts`). -/
structure Params where
  cloneDepth : Int := 0
  commandPath : Str := str "git"
  defaultBranch : Str := str "main"
  defaultHubSite : Str := str "github.com"
  defaultProtocol : Str := str "https"
  defaultRemote : Str := str "origin"
  enableCredentialHelper : Bool := false
  enablePartialClone : Bool := false
  enableSSLVerify : Bool := true
  pullArgs : List Str := [str "pull", str "--ff", str "--ff-only"]
deriving DecidableEq

/-- An external command: executable plus argument vector. -/
structure Command where
  command : Str
  args : List Str
deriving DecidableEq

/-- Result of the identifier-parsing cascade inside `getGitUrl`. -/
structure Parsed where
  protocol : Str
  host : Str
  user : Str
  name : Str
deriving DecidableEq

/-- `repo.match(/^git@(?<host>[^:]+):(?<user>[^\/]+)\/(?<name>.+)/)` from
`git/main.ts`: host is everything before the first `:` after `git@`, user is
everything before the following first `/`, name the (non-empty) rest. -/
def sshMatch : Str → Option (Str × Str × Str)
  | 'g' :: 'i' :: 't' :: '@' :: rest =>
    match splitFirst ':' rest with
    | none => none
    | some (host, rest2) =>
      if host = [] then none
      else
        match splitFirst '/' rest2 with
        | none => none
        | some (user, name) =>
          if user = [] ∨ name = [] then none else some (host, user, name)
  | _ => none

/-- `repo.match(/^(?<protocol>[^:]+):\/\/(?<host>[^\/]+)\/(?<user>[^\/]+)\/(?<name>.+)/)`
from `git/main.ts`. -/
def protocolMatch (s : Str) : Option (Str × Str × Str × Str) :=
  match splitFirst ':' s with
  | none => none
  | some (proto, rest) =>
    if proto = [] then none
    else
      match rest with
      | '/' :: '/' :: rest2 =>
        match splitFirst '/' rest2 with
        | none => none
        | some (host, rest3) =>
          if host = [] then none
          else
            match splitFirst '/' rest3 with
            | none => none
            | some (user, name) =>
              if user = [] ∨ name = [] then none
              else some (proto, host, user, name)
      | _ => none

/-- `repo.match(/^((?<host>[^\/]+)\/)?(?<user>[^\/]+)\/(?<name>.+)/)` from
`git/main.ts`.  The host group is optional: the regex first tries to bind it
(needing two further non-empty segments) and otherwise binds only user/name. -/
def hostMatch (s : Str) : Option (Option Str × Str × Str) :=
  match splitFirst '/' s with
  | none => none
  | some (a, r) =>
    if a = [] then none
    else
      match splitFirst '/' r with
      | some (u, n) =>
        if u ≠ [] ∧ n ≠ [] then some (some a, u, n)
        else if r ≠ [] then some (none, a, r) else none
      | none => if r ≠ [] then some (none, a, r) else none

/-- The matcher cascade of `getGitUrl` (`git/main.ts`): ssh shorthand, then
explicit scheme, then bare `[host/]user/name`; defaults otherwise. -/
def parseRepo (repo defaultHubSite defaultProtocol : Str) : Parsed :=
  match sshMatch repo with
  | some (h, u, n) => ⟨str "ssh", h, u, n⟩
  | none =>
    match protocolMatch repo with
    | some (p, h, u, n) => ⟨p, h, u, n⟩
    | none =>
      match hostMatch repo with
      | some (oh, u, n) => ⟨defaultProtocol, oh.getD defaultHubSite, u, n⟩
      | none => ⟨defaultProtocol, defaultHubSite, [], []⟩

/-- URL construction from parsed components (`git/main.ts`). -/
def buildUrl (protocol host user name : Str) : Str :=
  if protocol = str "ssh" then
    str "git@" ++ host ++ str ":" ++ user ++ str "/" ++ name
  else
    protocol ++ str "://" ++ host ++ str "/" ++ user ++ str "/" ++ name

/-- Suffix policy of `getGitUrl`: `"git.sr.ht" does not support ".git" url!`. -/
def suffixGit (host url : Str) : Str :=
  if host = str "git.sr.ht" ∨ endsWith (str ".git") url then url
  else url ++ str ".git"

/-- `getGitUrl` from `git/main.ts` (the current variant; a pure function). -/
def getGitUrl (plugin : Plugin) (defaultHubSite defaultProtocol : Str) : Str :=
  match plugin.repo with
  | none => []
  | some repo =>
    if repo = [] ∨ '/' ∉ repo then []
    else
      let pr := parseRepo repo defaultHubSite defaultProtocol
      if pr.user = [] ∨ pr.name = [] then []
      else if pr.protocol ≠ str "https" ∧ pr.protocol ≠ str "ssh" then []
      else suffixGit pr.host (buildUrl pr.protocol pr.host pr.user pr.name)

/-- The current `getGitUrl` paired with the list of messages it reports
through the host error sink `dpp#util#_error`.  The source function in
`git/main.ts` is a pure synchronous function containing no `denops.call`,
so the reported list is empty on every path. -/
def getGitUrlReported (plugin : Plugin) (defaultHubSite defaultProtocol : Str) :
    Str × List Str :=
  (getGitUrl plugin defaultHubSite defaultProtocol, [])

/-! ### The legacy variant `git.ts` -/

/-- `repo.match(/^git@(?<host>[^:]+):(?<name>.+)/)` from the legacy `git.ts`. -/
def legacySshMatch : Str → Option (Str × Str)
  | 'g' :: 'i' :: 't' :: '@' :: rest =>
    match splitFirst ':' rest with
    | none => none
    | some (host, name) =>
      if host = [] ∨ name = [] then none else some (host, name)
  | _ => none

/-- `repo.match(/^(?<protocol>[^:]+):\/\/(?<host>[^\/]+)\/(?<name>.+)/)` from
the legacy `git.ts`. -/
def legacyProtocolMatch (s : Str) : Option (Str × Str × Str) :=
  match splitFirst ':' s with
  | none => none
  | some (proto, rest) =>
    if proto = [] then none
    else
      match rest with
      | '/' :: '/' :: rest2 =>
        match splitFirst '/' rest2 with
        | none => none
        | some (host, name) =>
          if host = [] ∨ name = [] then none else some (proto, host, name)
      | _ => none

/-- Parse result of the legacy `getUrl` (no user/name split; the whole
identifier is the default name). -/
structure LegacyParsed where
  protocol : Str
  host : Str
  name : Str
deriving DecidableEq

/-- The matcher cascade of the legacy `getUrl` in `git.ts`. -/
def legacyParse (repo defaultHubSite defaultProtocol : Str) : LegacyParsed :=
  match legacySshMatch repo with
  | some (h, n) => ⟨str "ssh", h, n⟩
  | none =>
    match legacyProtocolMatch repo with
    | some (p, h, n) => ⟨p, h, n⟩
    | none => ⟨defaultProtocol, defaultHubSite, repo⟩

/-- `getUrl` from the legacy `git.ts`, with the messages reported through the
host error sink `dpp#util#_error` collected in the second component.  The
legacy variant applies no `.git` suffix policy. -/
def legacyGetUrl (plugin : Plugin) (defaultHubSite defaultProtocol : Str) :
    Str × List Str :=
  match plugin.repo with
  | none => ([], [])
  | some repo =>
    if repo = [] ∨ '/' ∉ repo then ([], [])
    else
      let pr := legacyParse repo defaultHubSite defaultProtocol
      if pr.protocol ≠ str "https" ∧ pr.protocol ≠ str "ssh" then
        ([], [str "Invalid git protocol: \"" ++ pr.protocol ++ str "\""])
      else
        ((if pr.protocol = str "ssh" then
            str "git@" ++ pr.host ++ str ":" ++ pr.name
          else pr.protocol ++ str "://" ++ pr.host ++ str "/" ++ pr.name), [])

/-! ### Local detection -/

/-- POSIX `isAbsolute` from the std path library: the path starts with `/`. -/
def isAbsolute : Str → Bool
  | '/' :: _ => true
  | _ => false

/-- `repo.match(/^~/)`. -/
def startsTilde : Str → Bool
  | '~' :: _ => true
  | _ => false

/-- Tail of the archive alternative `\/archive\/[^\/]+.zip$`: the rest of the
string must be a non-empty slash-free run, one arbitrary character (the
unescaped `.`), then `zip` at the end. -/
def archiveZipTail (r : Str) : Bool :=
  decide (5 ≤ r.length) && endsWith (str "zip") r &&
    decide ('/' ∉ r.take (r.length - 4))

/-- `repo.match(/\/\/(raw|gist)\.githubusercontent\.com\/|\/archive\/[^\/]+.zip$/)`:
the raw-content alternative is unanchored (substring search); the archive
alternative is anchored at the end.  The unescaped dots of the host patterns
are modelled as literal dots. -/
def isRawRepo (s : Str) : Bool :=
  containsSub (str "//raw.githubusercontent.com/") s ||
  containsSub (str "//gist.githubusercontent.com/") s ||
  s.tails.any (fun t => (str "/archive/").isPrefixOf t && archiveZipTail (t.drop 9))

/-- `url.replace(/\.git$/, "")`. -/
def stripDotGit (s : Str) : Str :=
  if endsWith (str ".git") s then s.take (s.length - 4) else s

/-- `url.replace(/:/, "/")`: the first `:` (if any) becomes `/`. -/
def replaceFirstColon : Str → Str
  | [] => []
  | c :: r => if c = ':' then '/' :: r else c :: replaceFirstColon r

/-- One match of `https:\/+` at the current position: `https:` followed by a
maximal non-empty run of slashes; returns the remainder after the match. -/
def dropHttpsRun (s : Str) : Option Str :=
  if (str "https:").isPrefixOf s then
    if 1 ≤ ((s.drop 6).takeWhile (· = '/')).length then
      some ((s.drop 6).drop ((s.drop 6).takeWhile (· = '/')).length)
    else none
  else none

/-- Scan removing every (non-overlapping, left-to-right) occurrence of
`https:\/+`; the `^git@` alternative of the global regex can only fire at
index 0 and is handled by the caller. -/
def stripHttpsRuns : Str → Str
  | [] => []
  | c :: rest =>
    match h : dropHttpsRun (c :: rest) with
    | some r => stripHttpsRuns r
    | none => c :: stripHttpsRuns rest
  termination_by s => s.length
  decreasing_by
  · unfold dropHttpsRun at h
    split at h
    · split at h
      next h1 =>
        have hk := (List.takeWhile_sublist
          (l := List.drop 6 (c :: rest)) (· = '/')).length_le
        have h2 : r = List.drop
            ((List.takeWhile (· = '/') (List.drop 6 (c :: rest))).length)
            (List.drop 6 (c :: rest)) := (Option.some.inj h).symm
        subst h2
        simp only [List.length_drop, List.length_cons] at hk h1 ⊢
        omega
      next => exact absurd h (by simp)
    · exact absurd h (by simp)
  · simp

/-- `url.replace(/https:\/+|^git@/g, "")` from `detect` in `git/main.ts`. -/
def stripHttpsGitPrefix (s : Str) : Str :=
  match dropHttpsRun s with
  | some r => stripHttpsRuns r
  | none => if (str "git@").isPrefixOf s then stripHttpsRuns (s.drop 4) else stripHttpsRuns s

/-- `s.replace(/^https:\/+|^git@/, "")` from the legacy `detect` (anchored and
non-global). -/
def legacyStripHttpsGitPrefix (s : Str) : Str :=
  match dropHttpsRun s with
  | some r => r
  | none => if (str "git@").isPrefixOf s then s.drop 4 else s

/-- The browse URL rewriting in `detect` (`git/main.ts`); display only. -/
def browseUrlOf (url : Str) : Str :=
  let u1 := if (str "git@github.com:").isPrefixOf url then
      str "https://github.com/" ++ url.drop 15
    else url
  let u2 := if (str "git@git.sr.ht:").isPrefixOf u1 then
      str "https://git.sr.ht" ++ u1.drop 14
    else u1
  stripDotGit u2

/-- A `Partial<Plugin>` result of detection: only the fields the source ever
sets, each optional (absent fields are not written back). -/
structure PluginUpdate where
  isLocal : Option Bool := none
  frozen : Option Bool := none
  path : Option Str := none
  url : Option Str := none
deriving DecidableEq

/-- Remote-repository tail of `detect` in `git/main.ts`: canonical path under
`<base>/repos/` plus the browse URL.  `basePath` is the host-provided global
`dpp#_base_path`. -/
def detectRemote (plugin : Plugin) (params : Params) (basePath : Str) :
    Option PluginUpdate :=
  let url := getGitUrl plugin params.defaultHubSite params.defaultProtocol
  if url = [] then none
  else
    let directory := replaceFirstColon (stripHttpsGitPrefix (stripDotGit url))
    some { path := some (basePath ++ str "/repos/" ++ directory),
           url := some (browseUrlOf url) }

/-- `detect` from `git/main.ts`.  `expand` is the host path-expansion call
`dpp#util#_expand` and `isDir` the filesystem directory probe. -/
def detect (plugin : Plugin) (params : Params) (expand : Str → Str)
    (isDir : Str → Bool) (basePath : Str) : Option PluginUpdate :=
  match plugin.repo with
  | none => none
  | some repo =>
    if repo = [] then none
    else if isRawRepo repo then none
    else if isAbsolute repo || startsTilde repo then
      if plugin.isLocal then none
      else
        let path := expand repo
        if isDir path then some { isLocal := some true, path := some path }
        else detectRemote plugin params basePath
    else detectRemote plugin params basePath

/-- Remote-repository tail of the legacy `detect` (`git.ts`): no browse URL,
anchored single-shot prefix replacement. -/
def legacyDetectRemote (plugin : Plugin) (params : Params) (basePath : Str) :
    Option PluginUpdate :=
  let url := (legacyGetUrl plugin params.defaultHubSite params.defaultProtocol).1
  if url = [] then none
  else
    let directory := replaceFirstColon (legacyStripHttpsGitPrefix (stripDotGit url))
    some { path := some (basePath ++ str "/repos/" ++ directory) }

/-- `detect` from the legacy `git.ts`: a local repository is reported with
`frozen: true, local: true` and the expanded path. -/
def legacyDetect (plugin : Plugin) (params : Params) (expand : Str → Str)
    (isDir : Str → Bool) (basePath : Str) : Option PluginUpdate :=
  match plugin.repo with
  | none => none
  | some repo =>
    if repo = [] then none
    else if isRawRepo repo then none
    else if isAbsolute repo || startsTilde repo then
      if plugin.isLocal then none
      else
        let path := expand repo
        if isDir path then
          some { isLocal := some true, frozen := some true, path := some path }
        else legacyDetectRemote plugin params basePath
    else legacyDetectRemote plugin params basePath

/-! ### Command planner (`git/main.ts`) -/

/-- The credential/TLS flag prefix shared by clone and fetch. -/
def initArgsOf (params : Params) : List Str :=
  (if params.enableCredentialHelper then []
   else [str "-c", str "credential.helper=", str "-c", str "core.fsmonitor=false"]) ++
  (if params.enableSSLVerify then [] else [str "-c", str "http.sslVerify=false"])

/-- `attrs?.gitRemote ?? args.protocolParams.defaultRemote`. -/
def remoteOf (plugin : Plugin) (params : Params) : Str :=
  (plugin.protocolAttrs.bind fun a => a.gitRemote).getD params.defaultRemote

/-- Decimal rendering of the clone depth in `--depth=<N>`. -/
def intStr (i : Int) : Str := (toString i).data

/-- `getSyncCommands` from `git/main.ts`.  `isDir` is the directory probe on
the plugin path; the clone-vs-update decision is keyed on it. -/
def getSyncCommands (plugin : Plugin) (params : Params) (isDir : Str → Bool) :
    List Command :=
  if falsy plugin.repo || falsy plugin.path then []
  else
    let path := plugin.path.getD []
    let depth := params.cloneDepth
    let initArgs := initArgsOf params
    if isDir path then
      let fetchArgs := initArgs ++ [str "fetch"]
      let remoteArgs := [str "remote", str "set-head", remoteOf plugin params, str "-a"]
      let submoduleArgs := [str "submodule", str "update", str "--init", str "--recursive"]
      -- `if (!depth && depth <= 0)`: for a number, `!depth` holds exactly at 0
      [⟨params.commandPath, fetchArgs⟩] ++
      (if depth = 0 ∧ depth ≤ 0 then [⟨params.commandPath, remoteArgs⟩] else []) ++
      [⟨params.commandPath, params.pullArgs⟩, ⟨params.commandPath, submoduleArgs⟩]
    else
      let commandArgs := initArgs ++ [str "clone", str "--recursive"] ++
        (if params.enablePartialClone then [str "--filter=blob:none"] else []) ++
        (if depth ≠ 0 ∧ 0 < depth then
          [str "--depth=" ++ intStr depth] ++
          (if ¬falsy plugin.rev = true ∧ 0 < (plugin.rev.getD []).length then
            [str "--branch", plugin.rev.getD []]
          else [])
        else []) ++
        [getGitUrl plugin params.defaultHubSite params.defaultProtocol, path]
      [⟨params.commandPath, commandArgs⟩]

/-- `getRollbackCommands` from `git/main.ts`. -/
def getRollbackCommands (plugin : Plugin) (params : Params) (rev : Str) :
    List Command :=
  if falsy plugin.repo || falsy plugin.path then []
  else [⟨params.commandPath, [str "reset", str "--hard", rev]⟩]

/-- `getDiffCommands` from `git/main.ts`. -/
def getDiffCommands (plugin : Plugin) (params : Params) (newRev oldRev : Str) :
    List Command :=
  if falsy plugin.repo || falsy plugin.path then []
  else
    [⟨params.commandPath,
      [str "diff", oldRev ++ str ".." ++ newRev, str "--",
       str "doc", str "README", str "README.md"]⟩]

/-- `getLogCommands` from `git/main.ts`.  `mergeBaseOut` is the captured
standard output of the `git merge-base <oldRev> <newRev>` subprocess (the
working directory chosen for that subprocess does not affect the returned
commands). -/
def getLogCommands (plugin : Plugin) (params : Params) (newRev oldRev : Str)
    (mergeBaseOut : Str) : List Command :=
  if falsy plugin.repo || falsy plugin.path ||
      newRev.length = 0 || oldRev.length = 0 then []
  else
    let isNotAncestor := mergeBaseOut = oldRev
    [⟨params.commandPath,
      [str "log",
       oldRev ++ (if isNotAncestor then [] else str "^") ++ str ".." ++ newRev,
       str "--graph", str "--no-show-signature",
       str "--pretty=format:\"%h [%cr] %s\""]⟩]

/-- `getRevisionLockCommands` from `git/main.ts`.  `tagOut` and `symRefOut`
are the captured outputs of the `git tag --list` and
`git symbolic-ref --short HEAD` subprocesses. -/
def getRevisionLockCommands (plugin : Plugin) (params : Params)
    (tagOut symRefOut : Str) : List Command :=
  if falsy plugin.repo || falsy plugin.path then []
  else
    let rev0 := plugin.rev.getD []
    let rev1 := if rev0 ≠ [] ∧ '*' ∈ rev0 then firstLine tagOut else rev0
    let rev2 :=
      if rev1 = [] then
        let r := firstLine symRefOut
        if containsSub (str "fatal: ") r then
          (plugin.protocolAttrs.bind fun a => a.gitDefaultBranch).getD
            params.defaultBranch
        else r
      else rev1
    [⟨params.commandPath,
      [str "checkout", str "--quiet", str "--guess", rev2, str "--"]⟩]

/-- `getChangesCountCommands` from `git/main.ts`: no emptiness check on the
revisions. -/
def getChangesCountCommands (plugin : Plugin) (params : Params)
    (newRev oldRev : Str) : List Command :=
  if falsy plugin.repo || falsy plugin.path then []
  else
    [⟨params.commandPath,
      [str "rev-list", str "--count", oldRev ++ str ".." ++ newRev]⟩]

/-- Hex digits of the `[0-9a-f]` class in `getRevision`. -/
def hexDigit (c : Char) : Bool := ('0' ≤ c && c ≤ '9') || ('a' ≤ c && c ≤ 'f')

/-- `line.replace(/^([0-9a-f]*) /, "$1")`: if the maximal leading hex run is
followed by a space, delete that space; otherwise the line is unchanged. -/
def stripHexSpace (l : Str) : Str :=
  match l.dropWhile hexDigit with
  | ' ' :: rest => l.takeWhile hexDigit ++ rest
  | _ => l

/-- `getGitDir` helper: `<base>/.git` when it is a directory, else empty. -/
def getGitDir (base : Str) (isDir : Str → Bool) : Str :=
  if isDir (base ++ str "/.git") then base ++ str "/.git" else []

/-- `getRevision` from `git/main.ts`: reads the VCS metadata directly.
`readFile` and `statOk` are the filesystem oracles for `Deno.readTextFile`
and `safeStat`. -/
def getRevision (plugin : Plugin) (isDir : Str → Bool) (readFile : Str → Str)
    (statOk : Str → Bool) : Str :=
  if falsy plugin.repo || falsy plugin.path then []
  else
    let gitDir := getGitDir (plugin.path.getD []) isDir
    if gitDir = [] then []
    else
      let headFileLine := firstLine (readFile (gitDir ++ str "/HEAD"))
      if (str "ref: ").isPrefixOf headFileLine then
        let ref := headFileLine.drop 5
        if statOk (gitDir ++ str "/" ++ ref) then
          firstLine (readFile (gitDir ++ str "/" ++ ref))
        else
          match (splitLines (readFile (gitDir ++ str "/packed-refs"))).filter
              (fun l => containsSub (str " " ++ ref) l) with
          | [] => headFileLine
          | l :: _ => stripHexSpace l
      else headFileLine

/-- Concrete plugin used by the C2 witness. -/
def pluginW : Plugin :=
  { repo := some (str "u/n"), path := some (str "/p"), rev := some (str "v1") }

/-- Concrete parameters used by the C2 witness. -/
def paramsW : Params := { cloneDepth := 1 }

/-! ### Validation against the source's own tests

The eight `Deno.test("getGitUrl", ...)` assertions from `git/main.ts`,
replayed against the embedding. -/

example : getGitUrl { repo := some (str "Shougo/dpp.vim") }
    (str "github.com") (str "https") = str "https://github.com/Shougo/dpp.vim.git" := by decide

example : getGitUrl { repo := some (str "gitlab.com/user/repo") }
    (str "github.com") (str "https") = str "https://gitlab.com/user/repo.git" := by decide

example : getGitUrl { repo := some (str "https://gitlab.com/user/repo") }
    (str "github.com") (str "https") = str "https://gitlab.com/user/repo.git" := by decide

example : getGitUrl { repo := some (str "foo://gitlab.com/user/repo") }
    (str "github.com") (str "https") = str "" := by decide

example : getGitUrl { repo := some (str "https://github.com/Shougo/dpp.vim.git") }
    (str "github.com") (str "https") = str "https://github.com/Shougo/dpp.vim.git" := by decide

example : getGitUrl { repo := some (str "Shougo/dpp.vim") }
    (str "github.com") (str "ssh") = str "git@github.com:Shougo/dpp.vim.git" := by decide

example : getGitUrl { repo := some (str "~whynothugo/lsp_lines.nvim") }
    (str "git.sr.ht") (str "https") = str "https://git.sr.ht/~whynothugo/lsp_lines.nvim" := by decide

example : getGitUrl { repo := some (str "~whynothugo/lsp_lines.nvim") }
    (str "git.sr.ht") (str "ssh") = str "git@git.sr.ht:~whynothugo/lsp_lines.nvim" := by decide

/-! ### Properties of the splitting helper -/

theorem splitFirst_eq_some {c : Char} {s a b : Str}
    (h : splitFirst c s = some (a, b)) : s = a ++ c :: b ∧ c ∉ a := by
  induction s generalizing a b with
  | nil => simp [splitFirst] at h
  | cons x xs ih =>
    by_cases hx : x = c
    · simp [splitFirst, hx] at h
      obtain ⟨ha, hb⟩ := h
      subst ha; subst hb; subst hx
      simp
    · simp [splitFirst, hx] at h
      match hsf : splitFirst c xs with
      | none => rw [hsf] at h; simp at h
      | some (a', b') =>
        rw [hsf] at h
        simp at h
        obtain ⟨ha, hb⟩ := h
        obtain ⟨hxs, hmem⟩ := ih hsf
        subst ha; subst hb; subst hxs
        refine ⟨rfl, ?_⟩
        simp [hmem]
        exact fun hcx => hx hcx.symm

theorem splitFirst_append {c : Char} {a : Str} (b : Str) (ha : c ∉ a) :
    splitFirst c (a ++ c :: b) = some (a, b) := by
  induction a with
  | nil => simp [splitFirst]
  | cons x xs ih =>
    have hx : x ≠ c := fun h => ha (h ▸ List.mem_cons_self x xs)
    have hxs : c ∉ xs := fun h => ha (List.mem_cons_of_mem x h)
    simp [splitFirst, hx, ih hxs]

theorem splitFirst_eq_none {c : Char} {s : Str} (h : c ∉ s) :
    splitFirst c s = none := by
  induction s with
  | nil => rfl
  | cons x xs ih =>
    have hx : x ≠ c := fun hxc => h (hxc ▸ List.mem_cons_self x xs)
    have hxs : c ∉ xs := fun hm => h (List.mem_cons_of_mem x hm)
    simp [splitFirst, hx, ih hxs]

/-! ### Matcher inversion and construction lemmas -/

theorem sshMatch_inv {r h u n : Str} (hm : sshMatch r = some (h, u, n)) :
    h ≠ [] ∧ u ≠ [] ∧ n ≠ [] ∧ ':' ∉ h ∧ '/' ∉ u ∧
    r = str "git@" ++ (h ++ ':' :: (u ++ '/' :: n)) := by
  unfold sshMatch at hm
  split at hm
  · next rest =>
    cases hsp : splitFirst ':' rest with
    | none => rw [hsp] at hm; simp at hm
    | some pr =>
      obtain ⟨host, rest2⟩ := pr
      rw [hsp] at hm
      by_cases hh : host = []
      · simp [hh] at hm
      · simp only [hh, if_false] at hm
        cases hsp2 : splitFirst '/' rest2 with
        | none => rw [hsp2] at hm; simp at hm
        | some pr2 =>
          obtain ⟨user, name⟩ := pr2
          rw [hsp2] at hm
          by_cases hun : user = [] ∨ name = []
          · simp [hun] at hm
          · simp only [hun, if_false, Option.some.injEq] at hm
            obtain ⟨rfl, rfl, rfl⟩ := hm
            push_neg at hun
            obtain ⟨hsa, hsc⟩ := splitFirst_eq_some hsp
            obtain ⟨hsa2, hsc2⟩ := splitFirst_eq_some hsp2
            refine ⟨hh, hun.1, hun.2, hsc, hsc2, ?_⟩
            rw [hsa, hsa2]
            rfl
  · simp at hm

theorem protocolMatch_inv {r p h u n : Str}
    (hm : protocolMatch r = some (p, h, u, n)) :
    p ≠ [] ∧ h ≠ [] ∧ u ≠ [] ∧ n ≠ [] ∧ ':' ∉ p ∧ '/' ∉ h ∧ '/' ∉ u ∧
    r = p ++ ':' :: '/' :: '/' :: (h ++ '/' :: (u ++ '/' :: n)) := by
  unfold protocolMatch at hm
  cases hsp : splitFirst ':' r with
  | none => rw [hsp] at hm; simp at hm
  | some pr =>
    obtain ⟨proto, rest⟩ := pr
    rw [hsp] at hm
    by_cases hp0 : proto = []
    · simp [hp0] at hm
    · simp only [hp0, if_false] at hm
      split at hm
      · next rest2 =>
        cases hsp2 : splitFirst '/' rest2 with
        | none => rw [hsp2] at hm; simp at hm
        | some pr2 =>
          obtain ⟨host, rest3⟩ := pr2
          rw [hsp2] at hm
          by_cases hh0 : host = []
          · simp [hh0] at hm
          · simp only [hh0, if_false] at hm
            cases hsp3 : splitFirst '/' rest3 with
            | none => rw [hsp3] at hm; simp at hm
            | some pr3 =>
              obtain ⟨user, name⟩ := pr3
              rw [hsp3] at hm
              by_cases hun : user = [] ∨ name = []
              · simp [hun] at hm
              · simp only [hun, if_false, Option.some.injEq] at hm
                obtain ⟨rfl, rfl, rfl, rfl⟩ := hm
                push_neg at hun
                obtain ⟨ha1, hc1⟩ := splitFirst_eq_some hsp
                obtain ⟨ha2, hc2⟩ := splitFirst_eq_some hsp2
                obtain ⟨ha3, hc3⟩ := splitFirst_eq_some hsp3
                refine ⟨hp0, hh0, hun.1, hun.2, hc1, hc2, hc3, ?_⟩
                rw [ha1]
                congr 1
                rw [ha2, ha3]
      · simp at hm

theorem hostMatch_inv {r : Str} {oh : Option Str} {u n : Str}
    (hm : hostMatch r = some (oh, u, n)) : u ≠ [] ∧ n ≠ [] ∧ '/' ∉ u := by
  unfold hostMatch at hm
  cases hsp : splitFirst '/' r with
  | none => rw [hsp] at hm; simp at hm
  | some pr =>
    obtain ⟨a, rest⟩ := pr
    rw [hsp] at hm
    dsimp only at hm
    obtain ⟨_, hca⟩ := splitFirst_eq_some hsp
    by_cases ha0 : a = []
    · rw [if_pos ha0] at hm; simp at hm
    · rw [if_neg ha0] at hm
      cases hsp2 : splitFirst '/' rest with
      | none =>
        rw [hsp2] at hm
        dsimp only at hm
        by_cases hrne : rest = []
        · rw [if_neg (fun hh => hh hrne)] at hm; simp at hm
        · rw [if_pos hrne] at hm
          simp only [Option.some.injEq, Prod.mk.injEq] at hm
          obtain ⟨rfl, rfl, rfl⟩ := hm
          exact ⟨ha0, hrne, hca⟩
      | some pr2 =>
        obtain ⟨u2, n2⟩ := pr2
        rw [hsp2] at hm
        dsimp only at hm
        obtain ⟨_, hcu⟩ := splitFirst_eq_some hsp2
        by_cases hun : u2 ≠ [] ∧ n2 ≠ []
        · rw [if_pos hun] at hm
          simp only [Option.some.injEq, Prod.mk.injEq] at hm
          obtain ⟨rfl, rfl, rfl⟩ := hm
          exact ⟨hun.1, hun.2, hcu⟩
        · rw [if_neg hun] at hm
          by_cases hrne : rest = []
          · rw [if_neg (fun hh => hh hrne)] at hm; simp at hm
          · rw [if_pos hrne] at hm
            simp only [Option.some.injEq, Prod.mk.injEq] at hm
            obtain ⟨rfl, rfl, rfl⟩ := hm
            exact ⟨ha0, hrne, hca⟩

theorem hostMatch_build2 {u n : Str} (hu : u ≠ []) (hn : n ≠ [])
    (hus : '/' ∉ u) (hns : '/' ∉ n) :
    hostMatch (u ++ '/' :: n) = some (none, u, n) := by
  unfold hostMatch
  rw [splitFirst_append n hus]
  simp only [hu, if_false, splitFirst_eq_none hns, hn, ne_eq,
    not_false_eq_true, if_true]

theorem hostMatch_build3 {h u n : Str} (hh : h ≠ []) (hu : u ≠ []) (hn : n ≠ [])
    (hhs : '/' ∉ h) (hus : '/' ∉ u) :
    hostMatch (h ++ '/' :: (u ++ '/' :: n)) = some (some h, u, n) := by
  unfold hostMatch
  rw [splitFirst_append (u ++ '/' :: n) hhs]
  simp only [hh, if_false, splitFirst_append n hus, hu, hn, ne_eq,
    not_false_eq_true, true_and, if_true]

theorem buildUrl_https (h u n : Str) :
    buildUrl (str "https") h u n =
      str "https://" ++ h ++ str "/" ++ u ++ str "/" ++ n := by
  have : ¬ (str "https" = str "ssh") := by decide
  simp only [buildUrl, this, if_false]
  rfl

theorem buildUrl_ssh (h u n : Str) :
    buildUrl (str "ssh") h u n =
      str "git@" ++ h ++ str ":" ++ u ++ str "/" ++ n := by
  simp [buildUrl]

/-- Evaluation of `getGitUrl` once the parse result is known to pass the
validity guards. -/
theorem getGitUrl_eval {r hub proto : Str} (hr : '/' ∈ r)
    (hu : (parseRepo r hub proto).user ≠ [])
    (hn : (parseRepo r hub proto).name ≠ [])
    (hp : (parseRepo r hub proto).protocol = str "https" ∨
      (parseRepo r hub proto).protocol = str "ssh") :
    getGitUrl { repo := some r } hub proto =
      suffixGit (parseRepo r hub proto).host
        (buildUrl (parseRepo r hub proto).protocol (parseRepo r hub proto).host
          (parseRepo r hub proto).user (parseRepo r hub proto).name) := by
  have hne : r ≠ [] := by rintro rfl; simp at hr
  have hpg : ¬((parseRepo r hub proto).protocol ≠ str "https" ∧
      (parseRepo r hub proto).protocol ≠ str "ssh") := by
    rcases hp with h | h <;> simp [h]
  simp [getGitUrl, hne, hr, hu, hn, hpg]

theorem sshMatch_build {h u m : Str} (hh : h ≠ []) (hhc : ':' ∉ h)
    (hu : u ≠ []) (hus : '/' ∉ u) (hm : m ≠ []) :
    sshMatch ('g' :: 'i' :: 't' :: '@' :: (h ++ ':' :: (u ++ '/' :: m))) =
      some (h, u, m) := by
  have hred : sshMatch ('g' :: 'i' :: 't' :: '@' :: (h ++ ':' :: (u ++ '/' :: m))) =
      (match splitFirst ':' (h ++ ':' :: (u ++ '/' :: m)) with
      | none => none
      | some (host, rest2) =>
        if host = [] then none
        else
          match splitFirst '/' rest2 with
          | none => none
          | some (user, name) =>
            if user = [] ∨ name = [] then none else some (host, user, name)) := rfl
  rw [hred, splitFirst_append (u ++ '/' :: m) hhc]
  dsimp only
  rw [if_neg hh, splitFirst_append m hus]
  dsimp only
  rw [if_neg (by simp [hu, hm])]

theorem protocolMatch_build {p h u m : Str} (hp : p ≠ []) (hpc : ':' ∉ p)
    (hh : h ≠ []) (hhs : '/' ∉ h) (hu : u ≠ []) (hus : '/' ∉ u) (hm : m ≠ []) :
    protocolMatch (p ++ ':' :: '/' :: '/' :: (h ++ '/' :: (u ++ '/' :: m))) =
      some (p, h, u, m) := by
  have hred : protocolMatch (p ++ ':' :: '/' :: '/' :: (h ++ '/' :: (u ++ '/' :: m))) =
      (if p = [] then none
      else
        match splitFirst '/' (h ++ '/' :: (u ++ '/' :: m)) with
        | none => none
        | some (host, rest3) =>
          if host = [] then none
          else
            match splitFirst '/' rest3 with
            | none => none
            | some (user, name) =>
              if user = [] ∨ name = [] then none
              else some (p, host, user, name)) := by
    unfold protocolMatch
    rw [splitFirst_append ('/' :: '/' :: (h ++ '/' :: (u ++ '/' :: m))) hpc]
    rfl
  rw [hred, if_neg hp, splitFirst_append (u ++ '/' :: m) hhs]
  dsimp only
  rw [if_neg hh, splitFirst_append m hus]
  dsimp only
  rw [if_neg (by simp [hu, hm])]

theorem endsWith_append_git (x : Str) :
    endsWith (str ".git") (x ++ str ".git") = true := by
  simp only [endsWith, decide_eq_true_eq]
  exact List.suffix_append x (str ".git")

/-- Inversion of a successful `getGitUrl`: the guards all passed. -/
theorem getGitUrl_ne_inv {r hub proto : Str}
    (hne : getGitUrl { repo := some r } hub proto ≠ []) :
    '/' ∈ r ∧ (parseRepo r hub proto).user ≠ [] ∧
    (parseRepo r hub proto).name ≠ [] ∧
    ((parseRepo r hub proto).protocol = str "https" ∨
     (parseRepo r hub proto).protocol = str "ssh") := by
  simp only [getGitUrl] at hne
  split at hne
  · exact absurd rfl hne
  next h1 =>
    push_neg at h1
    split at hne
    · exact absurd rfl hne
    · split at hne
      · exact absurd rfl hne
      next h2 h3 =>
        push_neg at h2 h3
        refine ⟨h1.2, h2.1, h2.2, ?_⟩
        by_cases hh : (parseRepo r hub proto).protocol = str "https"
        · exact Or.inl hh
        · exact Or.inr (h3 hh)

/-- Re-parsing a well-formed https URL built from slash-free host and user
recovers its components. -/
theorem getGitUrl_https_url {host usr m : Str} (hub proto : Str)
    (hh1 : host ≠ []) (hh2 : '/' ∉ host) (hu : usr ≠ []) (hus : '/' ∉ usr)
    (hm : m ≠ []) :
    getGitUrl { repo := some (str "https://" ++ host ++ str "/" ++ usr ++
        str "/" ++ m) } hub proto =
      suffixGit host (str "https://" ++ host ++ str "/" ++ usr ++ str "/" ++ m) := by
  have hr2 : str "https://" ++ host ++ str "/" ++ usr ++ str "/" ++ m =
      'h' :: 't' :: 't' :: 'p' :: 's' :: ':' :: '/' :: '/' ::
        (host ++ '/' :: (usr ++ '/' :: m)) := by
    simp only [List.append_assoc]; rfl
  have hssh : sshMatch ('h' :: 't' :: 't' :: 'p' :: 's' :: ':' :: '/' :: '/' ::
      (host ++ '/' :: (usr ++ '/' :: m))) = none := rfl
  have hpm : protocolMatch ('h' :: 't' :: 't' :: 'p' :: 's' :: ':' :: '/' :: '/' ::
      (host ++ '/' :: (usr ++ '/' :: m))) = some (str "https", host, usr, m) := by
    show protocolMatch (str "https" ++ ':' :: '/' :: '/' ::
      (host ++ '/' :: (usr ++ '/' :: m))) = _
    exact protocolMatch_build (by decide) (by decide) hh1 hh2 hu hus hm
  have hpr : parseRepo (str "https://" ++ host ++ str "/" ++ usr ++
      str "/" ++ m) hub proto = ⟨str "https", host, usr, m⟩ := by
    rw [hr2]
    unfold parseRepo
    rw [hssh]
    dsimp only
    rw [hpm]
  have hmem : '/' ∈ str "https://" ++ host ++ str "/" ++ usr ++ str "/" ++ m := by
    rw [hr2]; simp
  rw [getGitUrl_eval hmem (by rw [hpr]; exact hu) (by rw [hpr]; exact hm)
    (by rw [hpr]; exact Or.inl rfl), hpr]
  dsimp only
  rw [buildUrl_https]

/-- Re-parsing a well-formed ssh URL built from a colon-free host and a
slash-free user recovers its components. -/
theorem getGitUrl_ssh_url {host usr m : Str} (hub proto : Str)
    (hh1 : host ≠ []) (hh3 : ':' ∉ host) (hu : usr ≠ []) (hus : '/' ∉ usr)
    (hm : m ≠ []) :
    getGitUrl { repo := some (str "git@" ++ host ++ str ":" ++ usr ++
        str "/" ++ m) } hub proto =
      suffixGit host (str "git@" ++ host ++ str ":" ++ usr ++ str "/" ++ m) := by
  have hr2 : str "git@" ++ host ++ str ":" ++ usr ++ str "/" ++ m =
      'g' :: 'i' :: 't' :: '@' :: (host ++ ':' :: (usr ++ '/' :: m)) := by
    simp only [List.append_assoc]; rfl
  have hssh : sshMatch ('g' :: 'i' :: 't' :: '@' ::
      (host ++ ':' :: (usr ++ '/' :: m))) = some (host, usr, m) :=
    sshMatch_build hh1 hh3 hu hus hm
  have hpr : parseRepo (str "git@" ++ host ++ str ":" ++ usr ++
      str "/" ++ m) hub proto = ⟨str "ssh", host, usr, m⟩ := by
    rw [hr2]
    unfold parseRepo
    rw [hssh]
  have hmem : '/' ∈ str "git@" ++ host ++ str ":" ++ usr ++ str "/" ++ m := by
    rw [hr2]
    refine List.mem_cons_of_mem _ (List.mem_cons_of_mem _
      (List.mem_cons_of_mem _ (List.mem_cons_of_mem _ ?_)))
    exact List.mem_append.mpr (Or.inr (List.mem_cons_of_mem _
      (List.mem_append.mpr (Or.inr (List.mem_cons_self _ _)))))
  rw [getGitUrl_eval hmem (by rw [hpr]; exact hu) (by rw [hpr]; exact hm)
    (by rw [hpr]; exact Or.inr rfl), hpr]
  dsimp only
  rw [buildUrl_ssh]

theorem parseRepo_user_noslash (r hub proto : Str) :
    (parseRepo r hub proto).user = [] ∨ '/' ∉ (parseRepo r hub proto).user := by
  unfold parseRepo
  cases hs : sshMatch r with
  | some x =>
    obtain ⟨h, u, n⟩ := x
    dsimp only
    exact Or.inr (sshMatch_inv hs).2.2.2.2.1
  | none =>
    cases hp : protocolMatch r with
    | some x =>
      obtain ⟨p, h, u, n⟩ := x
      dsimp only
      exact Or.inr (protocolMatch_inv hp).2.2.2.2.2.2.1
    | none =>
      cases hh : hostMatch r with
      | some x =>
        obtain ⟨oh, u, n⟩ := x
        dsimp only
        exact Or.inr (hostMatch_inv hh).2.2
      | none => exact Or.inl rfl

/-! ### Claim theorems -/

/-- C1: for every shorthand identifier `user/name` (or `host/user/name`, in
which case the embedded host is the resolved host) that matches neither the
SSH nor the explicit-scheme grammar, with non-empty slash-free components,
`getGitUrl` with default protocol https returns
`https://<resolved host>/<user>/<name>` and with default protocol ssh
returns `git@<resolved host>:<user>/<name>`, in both cases subjected to the
suffix policy `suffixGit` (append `.git` unless the resolved host is
`git.sr.ht` or the URL already ends in `.git`). -/
theorem c1_shorthand_url (hub h u n : Str) :
    (u ≠ [] → n ≠ [] → '/' ∉ u → '/' ∉ n →
      sshMatch (u ++ str "/" ++ n) = none →
      protocolMatch (u ++ str "/" ++ n) = none →
      getGitUrl { repo := some (u ++ str "/" ++ n) } hub (str "https") =
        suffixGit hub (str "https://" ++ hub ++ str "/" ++ u ++ str "/" ++ n) ∧
      getGitUrl { repo := some (u ++ str "/" ++ n) } hub (str "ssh") =
        suffixGit hub (str "git@" ++ hub ++ str ":" ++ u ++ str "/" ++ n)) ∧
    (h ≠ [] → u ≠ [] → n ≠ [] → '/' ∉ h → '/' ∉ u → '/' ∉ n →
      sshMatch (h ++ str "/" ++ u ++ str "/" ++ n) = none →
      protocolMatch (h ++ str "/" ++ u ++ str "/" ++ n) = none →
      getGitUrl { repo := some (h ++ str "/" ++ u ++ str "/" ++ n) } hub
          (str "https") =
        suffixGit h (str "https://" ++ h ++ str "/" ++ u ++ str "/" ++ n) ∧
      getGitUrl { repo := some (h ++ str "/" ++ u ++ str "/" ++ n) } hub
          (str "ssh") =
        suffixGit h (str "git@" ++ h ++ str ":" ++ u ++ str "/" ++ n)) := by
  constructor
  · intro hu hn hus hns hssh hpm
    have hr2 : u ++ str "/" ++ n = u ++ '/' :: n := by
      simp only [List.append_assoc]; rfl
    rw [hr2] at hssh hpm
    have hmem : '/' ∈ u ++ '/' :: n :=
      List.mem_append.mpr (Or.inr (List.mem_cons_self _ _))
    have hhm := hostMatch_build2 hu hn hus hns
    have hpr : ∀ proto : Str,
        parseRepo (u ++ '/' :: n) hub proto = ⟨proto, hub, u, n⟩ := by
      intro proto
      simp [parseRepo, hssh, hpm, hhm]
    constructor
    · rw [hr2,
        getGitUrl_eval hmem (by rw [hpr]; exact hu) (by rw [hpr]; exact hn)
          (by rw [hpr]; exact Or.inl rfl),
        hpr]
      dsimp only
      rw [buildUrl_https]
    · rw [hr2,
        getGitUrl_eval hmem (by rw [hpr]; exact hu) (by rw [hpr]; exact hn)
          (by rw [hpr]; exact Or.inr rfl),
        hpr]
      dsimp only
      rw [buildUrl_ssh]
  · intro hh hu hn hhs hus hns hssh hpm
    have hr3 : h ++ str "/" ++ u ++ str "/" ++ n = h ++ '/' :: (u ++ '/' :: n) := by
      simp only [List.append_assoc]; rfl
    rw [hr3] at hssh hpm
    have hmem : '/' ∈ h ++ '/' :: (u ++ '/' :: n) :=
      List.mem_append.mpr (Or.inr (List.mem_cons_self _ _))
    have hhm := hostMatch_build3 hh hu hn hhs hus
    have hpr : ∀ proto : Str,
        parseRepo (h ++ '/' :: (u ++ '/' :: n)) hub proto = ⟨proto, h, u, n⟩ := by
      intro proto
      simp [parseRepo, hssh, hpm, hhm]
    constructor
    · rw [hr3,
        getGitUrl_eval hmem (by rw [hpr]; exact hu) (by rw [hpr]; exact hn)
          (by rw [hpr]; exact Or.inl rfl),
        hpr]
      dsimp only
      rw [buildUrl_https]
    · rw [hr3,
        getGitUrl_eval hmem (by rw [hpr]; exact hu) (by rw [hpr]; exact hn)
          (by rw [hpr]; exact Or.inr rfl),
        hpr]
      dsimp only
      rw [buildUrl_ssh]

/-- Witness for C1: `Shougo/dpp.vim` and `gitlab.com/Shougo/dpp.vim`. -/
theorem c1_shorthand_url_witness :
    (getGitUrl { repo := some (str "Shougo" ++ str "/" ++ str "dpp.vim") }
        (str "github.com") (str "https") =
      suffixGit (str "github.com") (str "https://" ++ str "github.com" ++
        str "/" ++ str "Shougo" ++ str "/" ++ str "dpp.vim") ∧
    getGitUrl { repo := some (str "Shougo" ++ str "/" ++ str "dpp.vim") }
        (str "github.com") (str "ssh") =
      suffixGit (str "github.com") (str "git@" ++ str "github.com" ++
        str ":" ++ str "Shougo" ++ str "/" ++ str "dpp.vim")) ∧
    (getGitUrl { repo := some (str "gitlab.com" ++ str "/" ++ str "Shougo" ++
        str "/" ++ str "dpp.vim") } (str "github.com") (str "https") =
      suffixGit (str "gitlab.com") (str "https://" ++ str "gitlab.com" ++
        str "/" ++ str "Shougo" ++ str "/" ++ str "dpp.vim") ∧
    getGitUrl { repo := some (str "gitlab.com" ++ str "/" ++ str "Shougo" ++
        str "/" ++ str "dpp.vim") } (str "github.com") (str "ssh") =
      suffixGit (str "gitlab.com") (str "git@" ++ str "gitlab.com" ++
        str ":" ++ str "Shougo" ++ str "/" ++ str "dpp.vim")) :=
  ⟨(c1_shorthand_url (str "github.com") (str "gitlab.com") (str "Shougo")
      (str "dpp.vim")).1 (by decide) (by decide) (by decide) (by decide)
      (by decide) (by decide),
   (c1_shorthand_url (str "github.com") (str "gitlab.com") (str "Shougo")
      (str "dpp.vim")).2 (by decide) (by decide) (by decide) (by decide)
      (by decide) (by decide) (by decide) (by decide)⟩

/-- Counterexample to C7 as stated: the identifier `a/b/c/d` produces a
valid match (`getGitUrl` returns a non-empty URL), yet the parsed `name`
component is `c/d`, which contains a slash — the name capture is `.+` and
admits slashes. -/
theorem c7_counterexample :
    getGitUrl { repo := some (str "a/b/c/d") } (str "github.com")
      (str "https") ≠ [] ∧
    '/' ∈ (parseRepo (str "a/b/c/d") (str "github.com") (str "https")).name :=
  ⟨by decide, by decide⟩

/-- C7 (amended): whenever `getGitUrl` returns a non-empty URL, the parsed
user and name are both non-empty, the user contains no slash (the name may),
and the resolved protocol is exactly `https` or `ssh`. -/
theorem c7_parse_invariant (r hub proto : Str)
    (hne : getGitUrl { repo := some r } hub proto ≠ []) :
    (parseRepo r hub proto).user ≠ [] ∧ (parseRepo r hub proto).name ≠ [] ∧
    '/' ∉ (parseRepo r hub proto).user ∧
    ((parseRepo r hub proto).protocol = str "https" ∨
     (parseRepo r hub proto).protocol = str "ssh") := by
  simp only [getGitUrl] at hne
  split at hne
  · exact absurd rfl hne
  · split at hne
    · exact absurd rfl hne
    · split at hne
      · exact absurd rfl hne
      · next h2 h3 =>
        push_neg at h2 h3
        refine ⟨h2.1, h2.2, ?_, ?_⟩
        · rcases parseRepo_user_noslash r hub proto with h | h
          · exact absurd h h2.1
          · exact h
        · by_cases hh : (parseRepo r hub proto).protocol = str "https"
          · exact Or.inl hh
          · exact Or.inr (h3 hh)

/-- Counterexample to C8 as stated: the identifier `ssh://:x/u/n` yields the
non-empty URL `git@:x:u/n.git` (the explicit-scheme grammar admits a host
beginning with `:`), but re-running URL building on that output does not
reproduce it: the rebuilt ssh URL no longer matches the SSH grammar (empty
host before the first `:`), falls through to the bare grammar, and resolves
against the default hub site instead. -/
theorem c8_counterexample :
    getGitUrl { repo := some (str "ssh://:x/u/n") } (str "github.com")
      (str "https") = str "git@:x:u/n.git" ∧
    getGitUrl { repo := some (getGitUrl { repo := some (str "ssh://:x/u/n") }
        (str "github.com") (str "https")) } (str "github.com") (str "https") ≠
      getGitUrl { repo := some (str "ssh://:x/u/n") } (str "github.com")
        (str "https") :=
  ⟨by decide, by decide⟩

/-- C8 (amended): URL building is idempotent for every plugin whose
identifier yields a non-empty URL and whose resolved host is non-empty and
contains neither a slash nor a colon (the counterexample shows it can fail
otherwise); and the suffix policy never appends `.git` to a URL that
already ends in `.git`. -/
theorem c8_idempotent (r hub proto : Str)
    (hne : getGitUrl { repo := some r } hub proto ≠ [])
    (hh1 : (parseRepo r hub proto).host ≠ [])
    (hh2 : '/' ∉ (parseRepo r hub proto).host)
    (hh3 : ':' ∉ (parseRepo r hub proto).host) :
    getGitUrl { repo := some (getGitUrl { repo := some r } hub proto) } hub
        proto = getGitUrl { repo := some r } hub proto ∧
    (∀ host url : Str, endsWith (str ".git") url = true →
      suffixGit host url = url) := by
  refine ⟨?_, fun host url hh => by simp [suffixGit, hh]⟩
  obtain ⟨hmem, husr, hnm, hproto⟩ := getGitUrl_ne_inv hne
  have hus : '/' ∉ (parseRepo r hub proto).user := by
    rcases parseRepo_user_noslash r hub proto with h | h
    · exact absurd h husr
    · exact h
  have heq := getGitUrl_eval hmem husr hnm hproto
  rcases hproto with hpv | hpv
  · -- protocol https
    rw [hpv, buildUrl_https] at heq
    by_cases hc : (parseRepo r hub proto).host = str "git.sr.ht" ∨
        endsWith (str ".git") (str "https://" ++ (parseRepo r hub proto).host ++
          str "/" ++ (parseRepo r hub proto).user ++ str "/" ++
          (parseRepo r hub proto).name) = true
    · have hu1 : getGitUrl { repo := some r } hub proto =
          str "https://" ++ (parseRepo r hub proto).host ++ str "/" ++
          (parseRepo r hub proto).user ++ str "/" ++
          (parseRepo r hub proto).name := by
        rw [heq]; unfold suffixGit; rw [if_pos hc]
      rw [hu1, getGitUrl_https_url hub proto hh1 hh2 husr hus hnm]
      unfold suffixGit
      rw [if_pos hc]
    · have hm' : (parseRepo r hub proto).name ++ str ".git" ≠ [] := by
        intro habs
        exact hnm (List.append_eq_nil.mp habs).1
      have hassoc : str "https://" ++ (parseRepo r hub proto).host ++ str "/" ++
          (parseRepo r hub proto).user ++ str "/" ++
          (parseRepo r hub proto).name ++ str ".git" =
          str "https://" ++ (parseRepo r hub proto).host ++ str "/" ++
          (parseRepo r hub proto).user ++ str "/" ++
          ((parseRepo r hub proto).name ++ str ".git") := by
        simp only [List.append_assoc]
      have hu1 : getGitUrl { repo := some r } hub proto =
          str "https://" ++ (parseRepo r hub proto).host ++ str "/" ++
          (parseRepo r hub proto).user ++ str "/" ++
          ((parseRepo r hub proto).name ++ str ".git") := by
        rw [heq]; unfold suffixGit; rw [if_neg hc, hassoc]
      rw [hu1, getGitUrl_https_url hub proto hh1 hh2 husr hus hm']
      unfold suffixGit
      rw [if_pos (Or.inr (by rw [← hassoc]; exact endsWith_append_git _))]
  · -- protocol ssh
    rw [hpv, buildUrl_ssh] at heq
    by_cases hc : (parseRepo r hub proto).host = str "git.sr.ht" ∨
        endsWith (str ".git") (str "git@" ++ (parseRepo r hub proto).host ++
          str ":" ++ (parseRepo r hub proto).user ++ str "/" ++
          (parseRepo r hub proto).name) = true
    · have hu1 : getGitUrl { repo := some r } hub proto =
          str "git@" ++ (parseRepo r hub proto).host ++ str ":" ++
          (parseRepo r hub proto).user ++ str "/" ++
          (parseRepo r hub proto).name := by
        rw [heq]; unfold suffixGit; rw [if_pos hc]
      rw [hu1, getGitUrl_ssh_url hub proto hh1 hh3 husr hus hnm]
      unfold suffixGit
      rw [if_pos hc]
    · have hm' : (parseRepo r hub proto).name ++ str ".git" ≠ [] := by
        intro habs
        exact hnm (List.append_eq_nil.mp habs).1
      have hassoc : str "git@" ++ (parseRepo r hub proto).host ++ str ":" ++
          (parseRepo r hub proto).user ++ str "/" ++
          (parseRepo r hub proto).name ++ str ".git" =
          str "git@" ++ (parseRepo r hub proto).host ++ str ":" ++
          (parseRepo r hub proto).user ++ str "/" ++
          ((parseRepo r hub proto).name ++ str ".git") := by
        simp only [List.append_assoc]
      have hu1 : getGitUrl { repo := some r } hub proto =
          str "git@" ++ (parseRepo r hub proto).host ++ str ":" ++
          (parseRepo r hub proto).user ++ str "/" ++
          ((parseRepo r hub proto).name ++ str ".git") := by
        rw [heq]; unfold suffixGit; rw [if_neg hc, hassoc]
      rw [hu1, getGitUrl_ssh_url hub proto hh1 hh3 husr hus hm']
      unfold suffixGit
      rw [if_pos (Or.inr (by rw [← hassoc]; exact endsWith_append_git _))]

/-- Witness for C8 (amended): the default shorthand example. -/
theorem c8_idempotent_witness :
    getGitUrl { repo := some (getGitUrl { repo := some (str "Shougo/dpp.vim") }
        (str "github.com") (str "https")) } (str "github.com") (str "https") =
      getGitUrl { repo := some (str "Shougo/dpp.vim") } (str "github.com")
        (str "https") ∧
    (∀ host url : Str, endsWith (str ".git") url = true →
      suffixGit host url = url) :=
  c8_idempotent (str "Shougo/dpp.vim") (str "github.com") (str "https")
    (by decide) (by decide) (by decide) (by decide)

/-- Witness for C7 (amended): the default shorthand example. -/
theorem c7_parse_invariant_witness :
    (parseRepo (str "Shougo/dpp.vim") (str "github.com") (str "https")).user ≠ [] ∧
    (parseRepo (str "Shougo/dpp.vim") (str "github.com") (str "https")).name ≠ [] ∧
    '/' ∉ (parseRepo (str "Shougo/dpp.vim") (str "github.com") (str "https")).user ∧
    ((parseRepo (str "Shougo/dpp.vim") (str "github.com") (str "https")).protocol =
        str "https" ∨
     (parseRepo (str "Shougo/dpp.vim") (str "github.com") (str "https")).protocol =
        str "ssh") :=
  c7_parse_invariant (str "Shougo/dpp.vim") (str "github.com") (str "https")
    (by decide)

/-- C9: for every plugin with missing or empty repo, or missing or empty
path, each Command Planner operation (`getSyncCommands`,
`getRollbackCommands`, `getDiffCommands`, `getLogCommands`,
`getChangesCountCommands`, `getRevisionLockCommands`) returns an empty
command list, and `getRevision` returns the empty string. -/
theorem c9_inapplicable_empty_plans (plugin : Plugin) (params : Params)
    (isDir : Str → Bool) (readFile : Str → Str) (statOk : Str → Bool)
    (rev newRev oldRev mergeBaseOut tagOut symRefOut : Str)
    (h : falsy plugin.repo = true ∨ falsy plugin.path = true) :
    getSyncCommands plugin params isDir = [] ∧
    getRollbackCommands plugin params rev = [] ∧
    getDiffCommands plugin params newRev oldRev = [] ∧
    getLogCommands plugin params newRev oldRev mergeBaseOut = [] ∧
    getChangesCountCommands plugin params newRev oldRev = [] ∧
    getRevisionLockCommands plugin params tagOut symRefOut = [] ∧
    getRevision plugin isDir readFile statOk = [] := by
  have hb : (falsy plugin.repo || falsy plugin.path) = true := by
    rcases h with h | h <;> simp [h]
  refine ⟨?_, ?_, ?_, ?_, ?_, ?_, ?_⟩ <;>
    simp [getSyncCommands, getRollbackCommands, getDiffCommands, getLogCommands,
      getChangesCountCommands, getRevisionLockCommands, getRevision, hb]

/-- Witness for C9: a plugin with no repo at all. -/
theorem c9_inapplicable_empty_plans_witness :
    getSyncCommands {} {} (fun _ => false) = [] ∧
    getRollbackCommands {} {} (str "v1") = [] ∧
    getDiffCommands {} {} (str "b") (str "a") = [] ∧
    getLogCommands {} {} (str "b") (str "a") (str "a") = [] ∧
    getChangesCountCommands {} {} (str "b") (str "a") = [] ∧
    getRevisionLockCommands {} {} (str "") (str "main") = [] ∧
    getRevision {} (fun _ => false) (fun _ => str "") (fun _ => false) = [] :=
  c9_inapplicable_empty_plans {} {} (fun _ => false) (fun _ => str "")
    (fun _ => false) (str "v1") (str "b") (str "a") (str "a") (str "")
    (str "main") (Or.inl (by decide))

/-- C10: for every plugin with non-empty repo and non-empty path,
`getChangesCountCommands` returns exactly one command with arguments
`rev-list --count <oldRev>..<newRev>`, even when `oldRev` or `newRev` is
empty; unlike `getLogCommands` (which returns no command on an empty
revision), it performs no emptiness check on the revision arguments. -/
theorem c10_changes_count (plugin : Plugin) (params : Params)
    (newRev oldRev mergeBaseOut : Str)
    (hr : falsy plugin.repo = false) (hp : falsy plugin.path = false) :
    getChangesCountCommands plugin params newRev oldRev =
      [⟨params.commandPath,
        [str "rev-list", str "--count", oldRev ++ str ".." ++ newRev]⟩] ∧
    (oldRev = [] ∨ newRev = [] →
      getLogCommands plugin params newRev oldRev mergeBaseOut = []) := by
  constructor
  · simp [getChangesCountCommands, hr, hp]
  · intro h
    rcases h with h | h <;> simp [getLogCommands, hr, hp, h]

/-- Witness for C10: empty revisions still produce the rev-list command. -/
theorem c10_changes_count_witness :
    getChangesCountCommands { repo := some (str "u/n"), path := some (str "/p") }
      {} (str "") (str "") =
      [⟨str "git", [str "rev-list", str "--count", str "" ++ str ".." ++ str ""]⟩] ∧
    (str "" = ([] : Str) ∨ str "" = ([] : Str) →
      getLogCommands { repo := some (str "u/n"), path := some (str "/p") } {}
        (str "") (str "") (str "x") = []) :=
  c10_changes_count { repo := some (str "u/n"), path := some (str "/p") } {}
    (str "") (str "") (str "x") (by decide) (by decide)

/-- C4: for every plugin with non-empty repo, path, oldRev and newRev, the
range argument of the single command returned by `getLogCommands` is
`oldRev..newRev` (no caret) exactly when the captured merge-base output
equals `oldRev`, and `oldRev^..newRev` otherwise. -/
theorem c4_log_range (plugin : Plugin) (params : Params)
    (newRev oldRev mergeBaseOut : Str)
    (hr : falsy plugin.repo = false) (hp : falsy plugin.path = false)
    (hn : newRev ≠ []) (ho : oldRev ≠ []) :
    (mergeBaseOut = oldRev →
      getLogCommands plugin params newRev oldRev mergeBaseOut =
        [⟨params.commandPath,
          [str "log", oldRev ++ str ".." ++ newRev, str "--graph",
           str "--no-show-signature", str "--pretty=format:\"%h [%cr] %s\""]⟩]) ∧
    (mergeBaseOut ≠ oldRev →
      getLogCommands plugin params newRev oldRev mergeBaseOut =
        [⟨params.commandPath,
          [str "log", oldRev ++ str "^.." ++ newRev, str "--graph",
           str "--no-show-signature", str "--pretty=format:\"%h [%cr] %s\""]⟩]) := by
  have hcaret : ∀ s : Str, s ++ str "^" ++ str ".." = s ++ str "^.." := by
    intro s; rw [List.append_assoc]; rfl
  constructor
  · intro hmb
    simp [getLogCommands, hr, hp, hn, ho, hmb]
  · intro hmb
    simp [getLogCommands, hr, hp, hn, ho, hmb, List.append_assoc]
    rw [← List.append_assoc]
    rfl

/-- Witness for C4: both branches at concrete revisions. -/
theorem c4_log_range_witness :
    (str "a" = str "a" →
      getLogCommands { repo := some (str "u/n"), path := some (str "/p") } {}
        (str "b") (str "a") (str "a") =
        [⟨str "git",
          [str "log", str "a" ++ str ".." ++ str "b", str "--graph",
           str "--no-show-signature", str "--pretty=format:\"%h [%cr] %s\""]⟩]) ∧
    (str "a" ≠ str "a" →
      getLogCommands { repo := some (str "u/n"), path := some (str "/p") } {}
        (str "b") (str "a") (str "a") =
        [⟨str "git",
          [str "log", str "a" ++ str "^.." ++ str "b", str "--graph",
           str "--no-show-signature", str "--pretty=format:\"%h [%cr] %s\""]⟩]) :=
  c4_log_range { repo := some (str "u/n"), path := some (str "/p") } {}
    (str "b") (str "a") (str "a") (by decide) (by decide) (by decide) (by decide)

/-- C3: for every plugin with non-empty repo and path whose path is an
existing directory, `getSyncCommands` returns exactly, in order: (1) fetch
with the credential/TLS flags, (2) remote set-head for the overridden or
default remote iff the configured clone depth is zero, (3) the configured
pullArgs verbatim, (4) recursive submodule update/init. -/
theorem c3_update_plan (plugin : Plugin) (params : Params) (isDir : Str → Bool)
    (hr : falsy plugin.repo = false) (hp : falsy plugin.path = false)
    (hd : isDir (plugin.path.getD []) = true) :
    getSyncCommands plugin params isDir =
      [⟨params.commandPath, initArgsOf params ++ [str "fetch"]⟩] ++
      (if params.cloneDepth = 0 then
        [⟨params.commandPath,
          [str "remote", str "set-head", remoteOf plugin params, str "-a"]⟩]
      else []) ++
      [⟨params.commandPath, params.pullArgs⟩,
       ⟨params.commandPath,
        [str "submodule", str "update", str "--init", str "--recursive"]⟩] := by
  have hiff : (params.cloneDepth = 0 ∧ params.cloneDepth ≤ 0) ↔ params.cloneDepth = 0 :=
    ⟨fun h => h.1, fun h => ⟨h, by omega⟩⟩
  simp [getSyncCommands, hr, hp, hd, hiff]

/-- Witness for C3: default parameters, existing directory. -/
theorem c3_update_plan_witness :
    getSyncCommands { repo := some (str "u/n"), path := some (str "/p") } {}
      (fun _ => true) =
      [⟨Params.commandPath {}, initArgsOf {} ++ [str "fetch"]⟩] ++
      (if Params.cloneDepth {} = 0 then
        [⟨Params.commandPath {},
          [str "remote", str "set-head",
           remoteOf { repo := some (str "u/n"), path := some (str "/p") } {},
           str "-a"]⟩]
      else []) ++
      [⟨Params.commandPath {}, Params.pullArgs {}⟩,
       ⟨Params.commandPath {},
        [str "submodule", str "update", str "--init", str "--recursive"]⟩] :=
  c3_update_plan { repo := some (str "u/n"), path := some (str "/p") } {}
    (fun _ => true) (by decide) (by decide) rfl

/-- Counterexample to C2 as stated: with the legitimate configuration
`pullArgs = ["pull", "--depth=1"]` (git pull accepts `--depth`), the update
plan on an existing directory emits a command containing a `--depth` flag,
because the configured pull vector is passed through verbatim. -/
theorem c2_counterexample :
    (getSyncCommands { repo := some (str "u/n"), path := some (str "/p") }
      { pullArgs := [str "pull", str "--depth=1"] } (fun _ => true)).any
      (fun c => c.args.any (fun a => (str "--depth").isPrefixOf a)) = true := by
  decide

theorem initArgsOf_no_depth (params : Params) :
    ∀ a ∈ initArgsOf params, (str "--depth").isPrefixOf a = false := by
  intro a ha
  unfold initArgsOf at ha
  rcases List.mem_append.mp ha with h | h
  · split at h
    · simp at h
    · simp at h
      rcases h with rfl | rfl | rfl | rfl <;> decide
  · split at h
    · simp at h
    · simp at h
      rcases h with rfl | rfl <;> decide

/-- C2 (amended): for every plugin with non-empty repo and path, when the
path is not an existing directory `getSyncCommands` returns exactly one
command — the clone, whose argument vector is the credential/TLS flags,
`clone --recursive`, the optional partial-clone filter, `--depth=<N>` iff
the clone depth is positive with `--branch <rev>` iff additionally a
non-empty revision was requested, then URL and destination (in particular no
fetch or pull command is emitted); when the path is an existing directory,
no emitted command contains an argument beginning with `--depth`, provided
no configured pullArgs entry and not the effective remote name begins with
`--depth` (the pull vector is emitted verbatim, so a configured `--depth`
passes through — this is what refutes the original claim). -/
theorem c2_sync_flags (plugin : Plugin) (params : Params) (isDir : Str → Bool)
    (hr : falsy plugin.repo = false) (hp : falsy plugin.path = false) :
    (isDir (plugin.path.getD []) = false →
      getSyncCommands plugin params isDir =
        [⟨params.commandPath,
          initArgsOf params ++ [str "clone", str "--recursive"] ++
          (if params.enablePartialClone then [str "--filter=blob:none"] else []) ++
          (if 0 < params.cloneDepth then
            [str "--depth=" ++ intStr params.cloneDepth] ++
            (if plugin.rev.getD [] ≠ [] then
              [str "--branch", plugin.rev.getD []]
            else [])
          else []) ++
          [getGitUrl plugin params.defaultHubSite params.defaultProtocol,
           plugin.path.getD []]⟩]) ∧
    (isDir (plugin.path.getD []) = true →
      (∀ a ∈ params.pullArgs, (str "--depth").isPrefixOf a = false) →
      (str "--depth").isPrefixOf (remoteOf plugin params) = false →
      ∀ c ∈ getSyncCommands plugin params isDir, ∀ a ∈ c.args,
        (str "--depth").isPrefixOf a = false) := by
  have hdep : (params.cloneDepth ≠ 0 ∧ 0 < params.cloneDepth) ↔
      0 < params.cloneDepth := ⟨fun h => h.2, fun h => ⟨by omega, h⟩⟩
  constructor
  · intro hd
    by_cases hv : plugin.rev.getD [] = []
    · have hlen : ¬ (0 < (plugin.rev.getD []).length) := by simp [hv]
      simp [getSyncCommands, hr, hp, hd, hdep, hv, hlen]
    · have hf : falsy plugin.rev = false := by
        cases hrv : plugin.rev with
        | none => rw [hrv] at hv; simp at hv
        | some s =>
          rw [hrv] at hv
          simp only [Option.getD_some] at hv
          simp [falsy, hv]
      have hlen : 0 < (plugin.rev.getD []).length := List.length_pos.mpr hv
      simp [getSyncCommands, hr, hp, hd, hdep, hv, hf, hlen]
  · intro hd hpull hremote c hc a ha
    simp only [getSyncCommands, hr, hp, hd, Bool.or_self, Bool.false_or,
      if_false, if_true] at hc
    rcases List.mem_append.mp hc with hc1 | hc2
    · rcases List.mem_append.mp hc1 with hc0 | hcif
      · -- the fetch command
        simp only [List.mem_singleton] at hc0
        subst hc0
        rcases List.mem_append.mp ha with h | h
        · exact initArgsOf_no_depth params a h
        · simp only [List.mem_singleton] at h
          subst h; decide
      · -- the conditional remote set-head command
        split at hcif
        · simp only [List.mem_singleton] at hcif
          subst hcif
          simp only [List.mem_cons, List.not_mem_nil, or_false] at ha
          rcases ha with rfl | rfl | rfl | rfl
          · decide
          · decide
          · exact hremote
          · decide
        · simp at hcif
    · -- pull and submodule commands
      simp only [List.mem_cons, List.not_mem_nil, or_false] at hc2
      rcases hc2 with rfl | rfl
      · exact hpull a ha
      · simp only [List.mem_cons, List.not_mem_nil, or_false] at ha
        rcases ha with rfl | rfl | rfl | rfl <;> decide

/-- Witness for C2 (amended): clone branch at depth 1 with a revision, and
the depth-free update branch, at concrete inputs. -/
theorem c2_sync_flags_witness :
    ((fun (_ : Str) => false) (pluginW.path.getD []) = false →
      getSyncCommands pluginW paramsW (fun _ => false) =
        [⟨paramsW.commandPath,
          initArgsOf paramsW ++ [str "clone", str "--recursive"] ++
          (if paramsW.enablePartialClone then [str "--filter=blob:none"] else []) ++
          (if 0 < paramsW.cloneDepth then
            [str "--depth=" ++ intStr paramsW.cloneDepth] ++
            (if pluginW.rev.getD [] ≠ [] then
              [str "--branch", pluginW.rev.getD []]
            else [])
          else []) ++
          [getGitUrl pluginW paramsW.defaultHubSite paramsW.defaultProtocol,
           pluginW.path.getD []]⟩]) ∧
    ((fun (_ : Str) => false) (pluginW.path.getD []) = true →
      (∀ a ∈ paramsW.pullArgs, (str "--depth").isPrefixOf a = false) →
      (str "--depth").isPrefixOf (remoteOf pluginW paramsW) = false →
      ∀ c ∈ getSyncCommands pluginW paramsW (fun _ => false),
        ∀ a ∈ c.args, (str "--depth").isPrefixOf a = false) :=
  c2_sync_flags pluginW paramsW (fun _ => false) (by decide) (by decide)

/-- Counterexample to C5 as stated: for the disallowed protocol identifier
`foo://gitlab.com/user/repo` the current variant (`getGitUrl` in
`git/main.ts`) returns the empty string but reports nothing through the
host error sink — the second component (the reported messages) is empty,
while the claim asserts the invalid protocol is additionally reported. -/
theorem c5_counterexample :
    getGitUrlReported { repo := some (str "foo://gitlab.com/user/repo") }
      (str "github.com") (str "https") = (str "", []) := by decide

/-- C5 (amended): for every identifier whose resolved protocol is neither
`https` nor `ssh`, URL resolution returns the empty string and does not
throw; the legacy variant (`git.ts`) additionally reports the invalid
protocol through the host error sink, while the current variant
(`git/main.ts`) reports nothing. -/
theorem c5_invalid_protocol (r hub proto : Str) :
    ((parseRepo r hub proto).protocol ≠ str "https" →
      (parseRepo r hub proto).protocol ≠ str "ssh" →
      getGitUrlReported { repo := some r } hub proto = ([], [])) ∧
    (r ≠ [] → '/' ∈ r →
      (legacyParse r hub proto).protocol ≠ str "https" →
      (legacyParse r hub proto).protocol ≠ str "ssh" →
      legacyGetUrl { repo := some r } hub proto =
        ([], [str "Invalid git protocol: \"" ++
          (legacyParse r hub proto).protocol ++ str "\""])) := by
  constructor
  · intro h1 h2
    simp only [getGitUrlReported, getGitUrl, Prod.mk.injEq]
    refine ⟨?_, by simp⟩
    split
    · rfl
    · simp [h1, h2]
  · intro hne hmem h1 h2
    simp [legacyGetUrl, hne, hmem, h1, h2]

/-- Witness for C5 (amended): the spec's own example identifier. -/
theorem c5_invalid_protocol_witness :
    ((parseRepo (str "foo://gitlab.com/user/repo") (str "github.com")
        (str "https")).protocol ≠ str "https" →
      (parseRepo (str "foo://gitlab.com/user/repo") (str "github.com")
        (str "https")).protocol ≠ str "ssh" →
      getGitUrlReported { repo := some (str "foo://gitlab.com/user/repo") }
        (str "github.com") (str "https") = ([], [])) ∧
    (str "foo://gitlab.com/user/repo" ≠ ([] : Str) →
      '/' ∈ str "foo://gitlab.com/user/repo" →
      (legacyParse (str "foo://gitlab.com/user/repo") (str "github.com")
        (str "https")).protocol ≠ str "https" →
      (legacyParse (str "foo://gitlab.com/user/repo") (str "github.com")
        (str "https")).protocol ≠ str "ssh" →
      legacyGetUrl { repo := some (str "foo://gitlab.com/user/repo") }
        (str "github.com") (str "https") =
        ([], [str "Invalid git protocol: \"" ++
          (legacyParse (str "foo://gitlab.com/user/repo") (str "github.com")
            (str "https")).protocol ++ str "\""])) :=
  c5_invalid_protocol (str "foo://gitlab.com/user/repo") (str "github.com")
    (str "https")

theorem isAbsolute_ne_nil {r : Str} (h : isAbsolute r = true) : r ≠ [] := by
  intro hr; subst hr; simp [isAbsolute] at h

theorem startsTilde_ne_nil {r : Str} (h : startsTilde r = true) : r ≠ [] := by
  intro hr; subst hr; simp [startsTilde] at h

/-- Counterexample to C6 as stated: for the plugin `repo = "~/foo"`, not
flagged local, whose expanded path `/h/foo` is an existing directory, the
current variant's `detect` (`git/main.ts`) returns a record with
`local: true` and the expanded path but with the `frozen` field absent —
the claim asserts the plugin is marked both local and frozen. -/
theorem c6_counterexample :
    detect { repo := some (str "~/foo") } {} (fun _ => str "/h/foo")
      (fun _ => true) (str "/base") =
      some { isLocal := some true, frozen := none,
             path := some (str "/h/foo"), url := none } := by decide

/-- C6 (amended): for every plugin whose repo is an absolute path or begins
with `~`, does not match the raw-content/archive pattern, is not already
flagged local, and whose expanded path is an existing directory, the current
variant's `detect` returns exactly `{local: true, path: <expanded>}` (no
frozen mark), while the legacy variant's `detect` additionally marks it
frozen. -/
theorem c6_local_detect (plugin : Plugin) (params : Params) (expand : Str → Str)
    (isDir : Str → Bool) (basePath : Str) (repo : Str)
    (hrepo : plugin.repo = some repo)
    (habs : isAbsolute repo = true ∨ startsTilde repo = true)
    (hraw : isRawRepo repo = false)
    (hlocal : plugin.isLocal = false)
    (hdir : isDir (expand repo) = true) :
    detect plugin params expand isDir basePath =
      some { isLocal := some true, path := some (expand repo) } ∧
    legacyDetect plugin params expand isDir basePath =
      some { isLocal := some true, frozen := some true,
             path := some (expand repo) } := by
  have hne : repo ≠ [] := by
    rcases habs with h | h
    · exact isAbsolute_ne_nil h
    · exact startsTilde_ne_nil h
  have hor : (isAbsolute repo || startsTilde repo) = true := by
    rcases habs with h | h <;> simp [h]
  constructor
  · simp [detect, hrepo, hne, hraw, hor, hlocal, hdir]
  · simp [legacyDetect, hrepo, hne, hraw, hor, hlocal, hdir]

/-- Witness for C6 (amended): a tilde path expanding to an existing
directory. -/
theorem c6_local_detect_witness :
    detect { repo := some (str "~/foo") } {} (fun _ => str "/h/foo")
      (fun _ => true) (str "/base") =
      some { isLocal := some true, path := some (str "/h/foo") } ∧
    legacyDetect { repo := some (str "~/foo") } {} (fun _ => str "/h/foo")
      (fun _ => true) (str "/base") =
      some { isLocal := some true, frozen := some true,
             path := some (str "/h/foo") } :=
  c6_local_detect { repo := some (str "~/foo") } {} (fun _ => str "/h/foo")
    (fun _ => true) (str "/base") (str "~/foo") rfl (Or.inr (by decide))
    (by decide) rfl rfl

end DppGit
